import Mathlib

/-!
Verification development for the chess-move-mastermind repository.

The development shallowly embeds the two core subsystems of the source:

* the Stockfish suggestion bridge (`src/lib/stockfish.ts`): an explicit
  event-trace state machine over the service's fields (`isReady`,
  `hasInitError`, `moveCallbacks`, the readiness promise, the per-request
  fallback timers) in which engine worker messages, `getBestMove` calls and
  timer expirations are the events;
* the game timeline held by the `ChessUI` component
  (`src/components/ChessUI.tsx`): pure state transformers for `handleMove`,
  `handleMoveClick`, `handleUndo`, `handleReset`, `startGame` and
  `handleExportPGN` over the component state `(game, history,
  currentMoveIndex, playerColor, suggestedMove)`.

The source delegates chess rules to the external chess.js library.  That
library is embedded concretely below: positions are the six FEN fields
(board, turn, castling rights, en-passant square, half-move clock, full-move
number), move generation and application follow the standard rules, and
`Chess.move` follows chess.js v1 semantics: it applies the move to the
instance in place (the source's own comment in `handleMove`, "Create a new
game instance to avoid mutation", relies on exactly this) and throws on an
illegal move.  A thrown exception is modelled as `Option.none`; the `catch`
branches of the source are the `none` branches here.  A `Chess` instance is
modelled as its position together with its internal move history (the SAN
strings accumulated since the instance was constructed), which is what
`pgn()` renders; `new Chess(game.fen())` is modelled as reconstruction from
the bare position, since the six FEN fields determine the printed FEN string
and vice versa.
-/

namespace Chess

/-- Side to move / piece colour. -/
inductive Color
  | white
  | black
deriving DecidableEq

/-- Opponent colour. -/
def Color.other : Color → Color
  | .white => .black
  | .black => .white

/-- The six chess piece kinds. -/
inductive PieceKind
  | pawn
  | knight
  | bishop
  | rook
  | queen
  | king
deriving DecidableEq

/-- A coloured piece. -/
structure Piece where
  color : Color
  kind : PieceKind
deriving DecidableEq

/-- Castling rights, one flag per side and wing (the third FEN field). -/
structure CastlingRights where
  wk : Bool
  wq : Bool
  bk : Bool
  bq : Bool
deriving DecidableEq

/-- A position: the six FEN fields.  Squares are indexed `0..63` with
`sq = rank * 8 + file`; rank 0 is rank 1 of the board, file 0 is file a. -/
structure Position where
  board : List (Option Piece)
  turn : Color
  castling : CastlingRights
  epSquare : Option Nat
  halfmove : Nat
  fullmove : Nat
deriving DecidableEq

/-- File (0..7) of a square index. -/
def fileOf (sq : Nat) : Nat := sq % 8

/-- Rank (0..7) of a square index. -/
def rankOf (sq : Nat) : Nat := sq / 8

/-- Square index from file and rank. -/
def mkSq (f r : Nat) : Nat := r * 8 + f

/-- Piece standing on a square, if any. -/
def pieceAt (p : Position) (sq : Nat) : Option Piece := p.board.getD sq none

/-- Board update at one square. -/
def setSq (b : List (Option Piece)) (sq : Nat) (v : Option Piece) :
    List (Option Piece) := b.set sq v

/-- Square reached from `sq` by the file/rank offset `(df, dr)`, if it stays
on the board. -/
def offSq (sq : Nat) (df dr : Int) : Option Nat :=
  let f : Int := fileOf sq
  let r : Int := rankOf sq
  let f2 := f + df
  let r2 := r + dr
  if 0 ≤ f2 ∧ f2 < 8 ∧ 0 ≤ r2 ∧ r2 < 8 then some (mkSq f2.toNat r2.toNat)
  else none

/-- Knight jump offsets. -/
def knightDeltas : List (Int × Int) :=
  [(1, 2), (2, 1), (2, -1), (1, -2), (-1, -2), (-2, -1), (-2, 1), (-1, 2)]

/-- King step offsets. -/
def kingDeltas : List (Int × Int) :=
  [(1, 0), (1, 1), (0, 1), (-1, 1), (-1, 0), (-1, -1), (0, -1), (1, -1)]

/-- Orthogonal ray directions. -/
def rookDirs : List (Int × Int) := [(1, 0), (-1, 0), (0, 1), (0, -1)]

/-- Diagonal ray directions. -/
def bishopDirs : List (Int × Int) := [(1, 1), (1, -1), (-1, 1), (-1, -1)]

/-- Does the optional piece have the given colour and kind? -/
def isKind (o : Option Piece) (c : Color) (k : PieceKind) : Bool :=
  match o with
  | some pc => pc.color == c && pc.kind == k
  | none => false

/-- First piece encountered walking from `sq` in direction `(df, dr)`. -/
def firstAlongAux (p : Position) (df dr : Int) : Nat → Nat → Option Piece
  | 0, _ => none
  | fuel + 1, sq =>
    match offSq sq df dr with
    | none => none
    | some s =>
      match pieceAt p s with
      | some pc => some pc
      | none => firstAlongAux p df dr fuel s

/-- First piece on the ray from `sq` in direction `(df, dr)`. -/
def firstAlong (p : Position) (sq : Nat) (df dr : Int) : Option Piece :=
  firstAlongAux p df dr 7 sq

/-- Forward direction of a pawn of colour `c`. -/
def pawnDir (c : Color) : Int :=
  match c with
  | .white => 1
  | .black => -1

/-- Does a pawn of colour `c` attack square `sq`? -/
def pawnAttacks (p : Position) (sq : Nat) (c : Color) : Bool :=
  ([-1, 1] : List Int).any fun df =>
    match offSq sq df (-(pawnDir c)) with
    | some s => isKind (pieceAt p s) c .pawn
    | none => false

/-- Is square `sq` attacked by a piece of colour `c`? -/
def attackedBy (p : Position) (sq : Nat) (c : Color) : Bool :=
  pawnAttacks p sq c ||
  knightDeltas.any (fun d =>
    match offSq sq d.1 d.2 with
    | some s => isKind (pieceAt p s) c .knight
    | none => false) ||
  kingDeltas.any (fun d =>
    match offSq sq d.1 d.2 with
    | some s => isKind (pieceAt p s) c .king
    | none => false) ||
  rookDirs.any (fun d =>
    match firstAlong p sq d.1 d.2 with
    | some pc => pc.color == c && (pc.kind == .rook || pc.kind == .queen)
    | none => false) ||
  bishopDirs.any (fun d =>
    match firstAlong p sq d.1 d.2 with
    | some pc => pc.color == c && (pc.kind == .bishop || pc.kind == .queen)
    | none => false)

/-- A generated candidate move: source square, destination square, and the
piece chosen for a pawn promotion (if any). -/
structure GenMove where
  fromSq : Nat
  toSq : Nat
  promo : Option PieceKind
deriving DecidableEq

/-- Back rank of colour `c`. -/
def homeRank (c : Color) : Nat :=
  match c with
  | .white => 0
  | .black => 7

/-- Castling rights cleared when the piece on square `sq` moves or is
captured (king and rook home squares). -/
def clearRightsFor (cr : CastlingRights) (sq : Nat) : CastlingRights :=
  let cr1 := if sq = 0 then { cr with wq := false } else cr
  let cr2 := if sq = 7 then { cr1 with wk := false } else cr1
  let cr3 := if sq = 4 then { cr2 with wk := false, wq := false } else cr2
  let cr4 := if sq = 56 then { cr3 with bq := false } else cr3
  let cr5 := if sq = 63 then { cr4 with bk := false } else cr4
  if sq = 60 then { cr5 with bk := false, bq := false } else cr5

/-- Apply a candidate move to a position without any legality check:
handles captures, en passant, promotion, castling rook relocation, castling
rights, the en-passant square, the half-move clock, the full-move number and
the side to move.  On a square without a piece the position is returned
unchanged (legal moves never hit that case). -/
def makeMoveRaw (p : Position) (m : GenMove) : Position :=
  match pieceAt p m.fromSq with
  | none => p
  | some pc =>
    let isPawn := pc.kind == .pawn
    let isEp :=
      isPawn && !(fileOf m.fromSq == fileOf m.toSq) && (pieceAt p m.toSq).isNone
    let capSq := if isEp then mkSq (fileOf m.toSq) (rankOf m.fromSq) else m.toSq
    let isCapture := (pieceAt p capSq).isSome
    let movedPiece : Piece :=
      match m.promo with
      | some k => ⟨pc.color, k⟩
      | none => pc
    let b1 := setSq p.board m.fromSq none
    let b2 := setSq b1 capSq none
    let b3 := setSq b2 m.toSq (some movedPiece)
    let b4 :=
      if pc.kind == .king && fileOf m.fromSq == 4 && fileOf m.toSq == 6 then
        setSq (setSq b3 (mkSq 7 (rankOf m.fromSq)) none)
          (mkSq 5 (rankOf m.fromSq)) (some ⟨pc.color, .rook⟩)
      else if pc.kind == .king && fileOf m.fromSq == 4 && fileOf m.toSq == 2 then
        setSq (setSq b3 (mkSq 0 (rankOf m.fromSq)) none)
          (mkSq 3 (rankOf m.fromSq)) (some ⟨pc.color, .rook⟩)
      else b3
    let cr := clearRightsFor (clearRightsFor p.castling m.fromSq) m.toSq
    let ep :=
      if isPawn && ((rankOf m.toSq : Int) - (rankOf m.fromSq : Int)).natAbs == 2 then
        some (mkSq (fileOf m.fromSq) ((rankOf m.fromSq + rankOf m.toSq) / 2))
      else none
    { board := b4
      turn := pc.color.other
      castling := cr
      epSquare := ep
      halfmove := if isPawn || isCapture then 0 else p.halfmove + 1
      fullmove := if pc.color == .black then p.fullmove + 1 else p.fullmove }

/-- Promotion piece choices, in chess.js generation order. -/
def promoKinds : List PieceKind := [.queen, .rook, .bishop, .knight]

/-- Pseudo-legal pawn moves from `sq` for colour `c`. -/
def pawnGen (p : Position) (sq : Nat) (c : Color) : List GenMove :=
  let dr := pawnDir c
  let promoRank : Nat :=
    match c with
    | .white => 7
    | .black => 0
  let startRank : Nat :=
    match c with
    | .white => 1
    | .black => 6
  let mk : Nat → List GenMove := fun toSq =>
    if rankOf toSq == promoRank then promoKinds.map (fun k => ⟨sq, toSq, some k⟩)
    else [⟨sq, toSq, none⟩]
  let fwd :=
    match offSq sq 0 dr with
    | some s1 =>
      if (pieceAt p s1).isNone then
        mk s1 ++
          (if rankOf sq == startRank then
            match offSq sq 0 (2 * dr) with
            | some s2 => if (pieceAt p s2).isNone then [⟨sq, s2, none⟩] else []
            | none => []
          else [])
      else []
    | none => []
  let caps := ([-1, 1] : List Int).filterMap fun df =>
    match offSq sq df dr with
    | some s =>
      let enemy :=
        match pieceAt p s with
        | some q => q.color == c.other
        | none => false
      if enemy || p.epSquare == some s then some s else none
    | none => none
  fwd ++ (caps.map mk).flatten

/-- Pseudo-legal moves of a leaper (knight or king) with offsets `ds`. -/
def leaperGen (p : Position) (sq : Nat) (c : Color) (ds : List (Int × Int)) :
    List GenMove :=
  ds.filterMap fun d =>
    match offSq sq d.1 d.2 with
    | some s =>
      match pieceAt p s with
      | some q => if q.color == c then none else some ⟨sq, s, none⟩
      | none => some ⟨sq, s, none⟩
    | none => none

/-- Ray walk for slider generation. -/
def slideGenAux (p : Position) (c : Color) (origin : Nat) (df dr : Int) :
    Nat → Nat → List GenMove
  | 0, _ => []
  | fuel + 1, sq =>
    match offSq sq df dr with
    | none => []
    | some s =>
      match pieceAt p s with
      | some q => if q.color == c then [] else [⟨origin, s, none⟩]
      | none => ⟨origin, s, none⟩ :: slideGenAux p c origin df dr fuel s

/-- Pseudo-legal moves of a slider with directions `ds`. -/
def sliderGen (p : Position) (sq : Nat) (c : Color) (ds : List (Int × Int)) :
    List GenMove :=
  (ds.map (fun d => slideGenAux p c sq d.1 d.2 7 sq)).flatten

/-- Castling moves available to colour `c` (king on its home square, rights
intact, path empty, king not in or moving through check). -/
def castleGen (p : Position) (c : Color) : List GenMove :=
  let r := homeRank c
  let e := mkSq 4 r
  let enemy := c.other
  let kingOk := isKind (pieceAt p e) c .king && !(attackedBy p e enemy)
  let ks :=
    let rightOk :=
      match c with
      | .white => p.castling.wk
      | .black => p.castling.bk
    if rightOk && kingOk &&
        (pieceAt p (mkSq 5 r)).isNone && (pieceAt p (mkSq 6 r)).isNone &&
        isKind (pieceAt p (mkSq 7 r)) c .rook &&
        !(attackedBy p (mkSq 5 r) enemy) && !(attackedBy p (mkSq 6 r) enemy) then
      [⟨e, mkSq 6 r, none⟩]
    else []
  let qs :=
    let rightOk :=
      match c with
      | .white => p.castling.wq
      | .black => p.castling.bq
    if rightOk && kingOk &&
        (pieceAt p (mkSq 3 r)).isNone && (pieceAt p (mkSq 2 r)).isNone &&
        (pieceAt p (mkSq 1 r)).isNone &&
        isKind (pieceAt p (mkSq 0 r)) c .rook &&
        !(attackedBy p (mkSq 3 r) enemy) && !(attackedBy p (mkSq 2 r) enemy) then
      [⟨e, mkSq 2 r, none⟩]
    else []
  ks ++ qs

/-- All pseudo-legal moves for the side to move. -/
def pseudoMoves (p : Position) : List GenMove :=
  ((List.range 64).map fun sq =>
    match pieceAt p sq with
    | some pc =>
      if pc.color == p.turn then
        match pc.kind with
        | .pawn => pawnGen p sq pc.color
        | .knight => leaperGen p sq pc.color knightDeltas
        | .bishop => sliderGen p sq pc.color bishopDirs
        | .rook => sliderGen p sq pc.color rookDirs
        | .queen => sliderGen p sq pc.color (rookDirs ++ bishopDirs)
        | .king => leaperGen p sq pc.color kingDeltas
      else []
    | none => []).flatten ++ castleGen p p.turn

/-- Square of the king of colour `c`. -/
def findKing (p : Position) (c : Color) : Option Nat :=
  (List.range 64).find? fun sq => isKind (pieceAt p sq) c .king

/-- Does the candidate move leave the mover's king out of check? -/
def legalAfter (p : Position) (m : GenMove) : Bool :=
  let p2 := makeMoveRaw p m
  match findKing p2 p.turn with
  | some k => !(attackedBy p2 k p.turn.other)
  | none => true

/-- Legal moves for the side to move: the chess.js `moves()` set. -/
def legalMoves (p : Position) : List GenMove :=
  (pseudoMoves p).filter (legalAfter p)

/-- Is the side to move in check? -/
def inCheck (p : Position) : Bool :=
  match findKing p p.turn with
  | some k => attackedBy p k p.turn.other
  | none => false


/-- File letter of a file index (0 ↦ a). -/
def fileChar (f : Nat) : Char := Char.ofNat (97 + f)

/-- Rank digit of a rank index (0 ↦ 1). -/
def rankChar (r : Nat) : Char := Char.ofNat (49 + r)

/-- Algebraic name of a square, such as e4. -/
def squareName (sq : Nat) : String :=
  String.mk [fileChar (fileOf sq), rankChar (rankOf sq)]

/-- SAN letter of a piece kind (empty for a pawn). -/
def pieceLetter : PieceKind → String
  | .pawn => ""
  | .knight => "N"
  | .bishop => "B"
  | .rook => "R"
  | .queen => "Q"
  | .king => "K"

/-- Lower-case promotion letter, as used in UCI coordinate moves. -/
def promoLetter : PieceKind → String
  | .pawn => "p"
  | .knight => "n"
  | .bishop => "b"
  | .rook => "r"
  | .queen => "q"
  | .king => "k"

/-- SAN promotion suffix, such as the text =Q. -/
def promoSan : PieceKind → String
  | .pawn => "=P"
  | .knight => "=N"
  | .bishop => "=B"
  | .rook => "=R"
  | .queen => "=Q"
  | .king => "=K"

/-- SAN disambiguation string for a non-pawn move, following the chess.js
rule: if another legal move of the same piece kind reaches the same target
from a different square, disambiguate by file, else by rank, else by the
full square name. -/
def sanDisambig (p : Position) (pc : Piece) (m : GenMove) : String :=
  let others := (legalMoves p).filter fun m2 =>
    m2.toSq == m.toSq && !(m2.fromSq == m.fromSq) &&
    (match pieceAt p m2.fromSq with
     | some q => q.kind == pc.kind
     | none => false)
  if others.isEmpty then ""
  else
    let sameFile := others.any fun m2 => fileOf m2.fromSq == fileOf m.fromSq
    let sameRank := others.any fun m2 => rankOf m2.fromSq == rankOf m.fromSq
    if sameFile && sameRank then squareName m.fromSq
    else if sameFile then String.mk [rankChar (rankOf m.fromSq)]
    else String.mk [fileChar (fileOf m.fromSq)]

/-- SAN check/checkmate suffix computed on the position after the move. -/
def sanSuffix (p2 : Position) : String :=
  if inCheck p2 then (if (legalMoves p2).isEmpty then "#" else "+") else ""

/-- Standard algebraic notation of a candidate move in position `p`. -/
def sanOf (p : Position) (m : GenMove) : String :=
  let sfx := sanSuffix (makeMoveRaw p m)
  match pieceAt p m.fromSq with
  | none => ""
  | some pc =>
    if pc.kind == .king && fileOf m.fromSq == 4 && fileOf m.toSq == 6 then
      "O-O" ++ sfx
    else if pc.kind == .king && fileOf m.fromSq == 4 && fileOf m.toSq == 2 then
      "O-O-O" ++ sfx
    else
      let isEp := pc.kind == .pawn && !(fileOf m.fromSq == fileOf m.toSq) &&
        (pieceAt p m.toSq).isNone
      let isCap := (pieceAt p m.toSq).isSome || isEp
      let promoStr :=
        match m.promo with
        | some k => promoSan k
        | none => ""
      if pc.kind == .pawn then
        (if isCap then String.mk [fileChar (fileOf m.fromSq)] ++ "x" else "") ++
          squareName m.toSq ++ promoStr ++ sfx
      else
        pieceLetter pc.kind ++ sanDisambig p pc m ++
          (if isCap then "x" else "") ++ squareName m.toSq ++ sfx

/-- A chess.js verbose move record, as returned by `move()` and stored in
the component's `history` state: source and target squares, promotion piece,
moving colour, and SAN text. -/
structure MoveRec where
  fromSq : Nat
  toSq : Nat
  promotion : Option PieceKind
  color : Color
  san : String
deriving DecidableEq

/-- Verbose move record of a candidate move. -/
def toMoveRec (p : Position) (m : GenMove) : MoveRec :=
  ⟨m.fromSq, m.toSq, m.promo, p.turn, sanOf p m⟩

/-- The `(from, to, promotion)` object passed to chess.js `move()`. -/
structure MoveInput where
  fromSq : Nat
  toSq : Nat
  promotion : Option PieceKind
deriving DecidableEq

/-- chess.js `move()` on a position: find the legal move matching the given
squares; the promotion choice matters only if the matched move is a
promotion (a superfluous promotion field is ignored, a missing one on a real
promotion fails to match).  Returns the new position and the verbose move
record, or `none` (the thrown Invalid move of chess.js v1) when no legal
move matches. -/
def moveImpl (p : Position) (i : MoveInput) : Option (Position × MoveRec) :=
  match (legalMoves p).find? (fun m =>
      m.fromSq == i.fromSq && m.toSq == i.toSq &&
      (m.promo.isNone || m.promo == i.promotion)) with
  | some m => some (makeMoveRaw p m, toMoveRec p m)
  | none => none

/-- chess.js `moves({verbose: true})`: the legal-move set as verbose
records. -/
def movesVerbose (p : Position) : List MoveRec :=
  (legalMoves p).map (toMoveRec p)

/-- The `moveToUci` helper of `src/lib/stockfish.ts`: `move.from + move.to +
(move.promotion ? move.promotion : "")`. -/
def moveToUci (m : MoveRec) : String :=
  squareName m.fromSq ++ squareName m.toSq ++
    (match m.promotion with
     | some k => promoLetter k
     | none => "")

/-- A chess.js `Chess` instance: its current position, the position it was
constructed from, and the SAN history of the moves applied to it since
construction (what `pgn()` renders). -/
structure Game where
  pos : Position
  startPos : Position
  sans : List String
deriving DecidableEq

/-- A fresh `Chess` instance loaded from a position (`new Chess(fen)`): the
internal move history starts empty. -/
def Game.fromPos (p : Position) : Game := ⟨p, p, []⟩

/-- chess.js `move()` on an instance: applies the move to the instance in
place; the returned `Game` is the state of the instance after the call. -/
def Game.applyMove (g : Game) (i : MoveInput) : Option (Game × MoveRec) :=
  match moveImpl g.pos i with
  | some (p2, mv) => some (⟨p2, g.startPos, g.sans ++ [mv.san]⟩, mv)
  | none => none

/-- Piece kind on the back rank at file `f` in the initial position. -/
def backKind : Nat → PieceKind
  | 0 => .rook
  | 1 => .knight
  | 2 => .bishop
  | 3 => .queen
  | 4 => .king
  | 5 => .bishop
  | 6 => .knight
  | _ => .rook

/-- The initial board. -/
def startBoard : List (Option Piece) :=
  (List.range 64).map fun sq =>
    let r := rankOf sq
    let f := fileOf sq
    if r == 0 then some ⟨.white, backKind f⟩
    else if r == 1 then some ⟨.white, .pawn⟩
    else if r == 6 then some ⟨.black, .pawn⟩
    else if r == 7 then some ⟨.black, backKind f⟩
    else none

/-- The standard initial position. -/
def startPosition : Position :=
  ⟨startBoard, .white, ⟨true, true, true, true⟩, none, 0, 1⟩

/-- A fresh `new Chess()` instance at the initial position. -/
def initialGame : Game := Game.fromPos startPosition

/-- Movetext rendering of a SAN list: white moves are prefixed with the move
number, the first rendered move of a black-to-move start uses the
continuation form with three dots, as chess.js `pgn()` does. -/
def movetextAux : Color → Nat → Bool → List String → List String
  | _, _, _, [] => []
  | .white, n, _, s :: rest =>
    (toString n ++ ". " ++ s) :: movetextAux .black n false rest
  | .black, n, isFirst, s :: rest =>
    (if isFirst then toString n ++ "... " ++ s else s) ::
      movetextAux .white (n + 1) false rest

/-- chess.js `pgn()` of an instance, restricted to the movetext (the claim
under verification compares move transcripts modulo metadata tags, so the
SetUp/FEN header tags emitted for an instance loaded from a FEN are not
rendered). -/
def pgn (g : Game) : String :=
  String.intercalate " " (movetextAux g.startPos.turn g.startPos.fullmove true g.sans)

/-! ## The fallback move chooser of `src/lib/stockfish.ts` -/

/-- A sample of `Math.random()`: a rational in the half-open unit interval.
The impure call in the source becomes an explicit input of the embedding. -/
abbrev Rand := {q : ℚ // 0 ≤ q ∧ q < 1}

/-- The index `Math.floor(Math.random() * moves.length)` computed by
`simulateBestMove`. -/
def randIndex (r : Rand) (n : Nat) : Nat := (⌊r.val * (n : ℚ)⌋).toNat

/-- The random index is always within the move list. -/
theorem randIndex_lt (r : Rand) (n : Nat) (h : 0 < n) : randIndex r n < n := by
  have hn : (0 : ℚ) < (n : ℚ) := by exact_mod_cast h
  have hlt : r.val * (n : ℚ) < (n : ℚ) := by
    have := mul_lt_mul_of_pos_right r.prop.2 hn
    simpa using this
  have hfloor : ⌊r.val * (n : ℚ)⌋ < (n : ℤ) := by
    exact Int.floor_lt.mpr (by exact_mod_cast hlt)
  have h0 : (0 : ℤ) ≤ ⌊r.val * (n : ℚ)⌋ := by
    apply Int.floor_nonneg.mpr
    exact mul_nonneg r.prop.1 (le_of_lt hn)
  unfold randIndex
  omega

/-- `simulateBestMove` of `src/lib/stockfish.ts`: get the verbose legal-move
list; if it is empty return the empty string, otherwise return the UCI text
of the move at index `Math.floor(Math.random() * moves.length)`. -/
def simulateBestMove (g : Game) (r : Rand) : String :=
  if h : (movesVerbose g.pos).length = 0 then ""
  else moveToUci ((movesVerbose g.pos).get
    ⟨randIndex r (movesVerbose g.pos).length,
     randIndex_lt r (movesVerbose g.pos).length (Nat.pos_of_ne_zero h)⟩)

/-! ## The Stockfish bridge of `src/lib/stockfish.ts`

The `StockfishService` singleton is modelled as a state machine driven by an
event list.  The events are the `getBestMove` calls (each carrying a fresh
request identity, the `Chess` instance passed in, and the `Math.random()`
sample its immediate-fallback path would draw), the worker's messages, and
the expirations of the 5000 ms fallback timers that `getBestMove` schedules.
A promise `resolve` callback is identified by the request identity; the
`results` field records, for each request, the string its promise resolved
with.  Commands posted to the worker are logged in `sent`. -/

/-- A command posted to the Stockfish worker, as built by `init`,
`getBestMove` (`position fen …` and `go depth 20 movetime 2000`). -/
inductive Cmd
  | uci
  | setoption (name : String) (value : Nat)
  | isready
  | positionFen (p : Position)
  | go (depth movetime : Nat)
deriving DecidableEq

/-- The handshake commands sent by a successful `init`. -/
def initCmds : List Cmd :=
  [.uci, .setoption "Threads" 8, .setoption "Hash" 128, .setoption "MultiPV" 1, .isready]

/-- A message from the worker, after the handler's dispatch on
`message === "readyok"` and `message.startsWith("bestmove")` (a `bestmove`
message carries the move token `message.split(" ")[1]`). -/
inductive EngineMsg
  | readyok
  | bestmove (mv : String)
  | other (text : String)
deriving DecidableEq

/-- An event at the bridge: a `getBestMove` call, a worker message, or the
expiration of the 5000 ms fallback timer of request `id` (the timer's
fallback draws the sample `r`). -/
inductive BridgeEvent
  | issue (id : Nat) (g : Game) (r : Rand)
  | engineMsg (m : EngineMsg)
  | fireTimeout (id : Nat) (r : Rand)

/-- The state of the `StockfishService` instance plus the promises and
timers around it. -/
structure BridgeState where
  engineExists : Bool
  isReady : Bool
  hasInitError : Bool
  readyResolved : Bool
  waitingReady : List (Nat × Game × Rand)
  moveCallbacks : List Nat
  pendingTimeouts : List (Nat × Game)
  sent : List Cmd
  results : List (Nat × String)
deriving DecidableEq

/-- State after the constructor ran `init()`: either the worker was created
and the handshake commands were posted, or the construction threw, in which
case `hasInitError` is set and the ready promise is resolved at once. -/
def initState (ok : Bool) : BridgeState :=
  if ok then ⟨true, false, false, false, [], [], [], initCmds, []⟩
  else ⟨false, false, true, true, [], [], [], [], []⟩

/-- Resolve the promise of request `id` with value `v`; a promise resolves
at most once, so an already-resolved request is unchanged. -/
def resolveReq (s : BridgeState) (id : Nat) (v : String) : BridgeState :=
  if (s.results.lookup id).isSome then s
  else { s with results := (id, v) :: s.results }

/-- Continuation of `getBestMove` after `await waitUntilReady()`: with an
init error or no worker, resolve immediately with `simulateBestMove`;
otherwise register the resolve callback, post the `position fen` and `go`
commands, and schedule the 5000 ms fallback timer. -/
def afterReady (s : BridgeState) (id : Nat) (g : Game) (r : Rand) : BridgeState :=
  if s.hasInitError || !s.engineExists then
    resolveReq s id (simulateBestMove g r)
  else
    { s with moveCallbacks := s.moveCallbacks ++ [id],
             sent := s.sent ++ [.positionFen g.pos, .go 20 2000],
             pendingTimeouts := s.pendingTimeouts ++ [(id, g)] }

/-- One event step of the bridge.

* `issue`: a `getBestMove` call; it runs its continuation at once when the
  ready promise is already resolved, otherwise it suspends on the promise.
* `readyok`: sets `isReady`, resolves the ready promise, and resumes the
  suspended calls in order.
* `bestmove mv`: the handler calls every registered callback with `mv` and
  then clears the callback list.
* `other`: ignored by the handler.
* `fireTimeout id`: the timer scheduled for request `id` expires; if the
  callback is still registered it is removed and resolved with the
  fallback, otherwise nothing happens. -/
def step (s : BridgeState) (e : BridgeEvent) : BridgeState :=
  match e with
  | .issue id g r =>
    if s.readyResolved then afterReady s id g r
    else { s with waitingReady := s.waitingReady ++ [(id, g, r)] }
  | .engineMsg .readyok =>
    let s1 := { s with isReady := true, readyResolved := true, waitingReady := [] }
    s.waitingReady.foldl (fun acc w => afterReady acc w.1 w.2.1 w.2.2) s1
  | .engineMsg (.bestmove mv) =>
    let s1 := s.moveCallbacks.foldl (fun acc id => resolveReq acc id mv) s
    { s1 with moveCallbacks := [] }
  | .engineMsg (.other _) => s
  | .fireTimeout id r =>
    match s.pendingTimeouts.lookup id with
    | none => s
    | some g =>
      let s1 := { s with pendingTimeouts := s.pendingTimeouts.eraseP (fun t => t.1 == id) }
      if s1.moveCallbacks.contains id then
        resolveReq { s1 with moveCallbacks := s1.moveCallbacks.erase id } id
          (simulateBestMove g r)
      else s1

/-- Run the bridge from its constructed state through an event list. -/
def runBridge (ok : Bool) (evs : List BridgeEvent) : BridgeState :=
  evs.foldl step (initState ok)

/-! ## The `ChessUI` component state (`src/components/ChessUI.tsx`) -/

/-- The component state relevant to the timeline: the `game` instance, the
`history` array of verbose move records, the `currentMoveIndex` cursor
(an integer, `-1` denoting the initial position), the chosen player colour
and the currently displayed suggestion (a from/to square pair).
Presentation-only state (`flipped`, `showSuggestions`, `isAnalyzing`,
`gameStarted`) is outside the claims under verification. -/
structure UIState where
  game : Game
  history : List MoveRec
  cursor : Int
  playerColor : Color
  suggestedMove : Option (Nat × Nat)
deriving DecidableEq

/-- JavaScript `array.slice(0, e)` with a possibly negative end index: a
negative end counts from the end of the array. -/
def jsSliceTo (l : List MoveRec) (e : Int) : List MoveRec :=
  l.take (if 0 ≤ e then e.toNat else ((l.length : Int) + e).toNat)

/-- `handleMove` of `ChessUI`: build `new Chess(game.fen())`, apply the
move; on success set the new game, truncate the history at the cursor,
append the move, point the cursor at the new last index and, if the mover is
the player, clear the suggestion; the thrown Invalid move of the re-apply is
caught and leaves the state unchanged. -/
def uiHandleMove (s : UIState) (m : MoveRec) : UIState :=
  match (Game.fromPos s.game.pos).applyMove ⟨m.fromSq, m.toSq, m.promotion⟩ with
  | some (g2, _) =>
    let newHistory := jsSliceTo s.history (s.cursor + 1) ++ [m]
    { s with game := g2,
             history := newHistory,
             cursor := (newHistory.length : Int) - 1,
             suggestedMove := if m.color == s.playerColor then none else s.suggestedMove }
  | none => s

/-- Replay a list of recorded moves on a `Chess` instance, as the loops of
`handleMoveClick` and `handleUndo` do; `none` models a throw (an undefined
or illegal entry). -/
def replayG : Game → List MoveRec → Option Game
  | g, [] => some g
  | g, m :: ms =>
    match g.applyMove ⟨m.fromSq, m.toSq, m.promotion⟩ with
    | some (g2, _) => replayG g2 ms
    | none => none

/-- `handleMoveClick` of `ChessUI` (the timeline `jumpTo`): replay
`history[0..index]` on a fresh `new Chess()` and set the game and the
cursor.  There is no range check: an index at or past the history length
reaches `history[i] === undefined` inside the loop, and `newGame.move`
throws out of the handler before any state update (`none`); a negative
index runs the loop zero times and the updates do happen. -/
def handleMoveClick (s : UIState) (i : Int) : Option UIState :=
  if (s.history.length : Int) ≤ i then none
  else
    match replayG initialGame (s.history.take (i + 1).toNat) with
    | some g => some { s with game := g, cursor := i }
    | none => none

/-- `handleUndo` of `ChessUI` (the timeline `stepBack`): an early `return`
at a negative cursor, otherwise replay `history[0..cursor-1]`, set the game,
decrement the cursor and clear the suggestion.  A cursor past the history
length would reach an undefined entry and throw (`none`); reachable states
never do. -/
def handleUndo (s : UIState) : Option UIState :=
  if s.cursor < 0 then some s
  else if (s.history.length : Int) < s.cursor then none
  else
    match replayG initialGame (s.history.take s.cursor.toNat) with
    | some g => some { s with game := g, cursor := s.cursor - 1, suggestedMove := none }
    | none => none

/-- `startGame` of `ChessUI`: a fresh `new Chess()`, empty history, cursor
`-1`, the chosen colour, no suggestion. -/
def startGame (c : Color) : UIState := ⟨initialGame, [], -1, c, none⟩

/-- `handleReset` of `ChessUI`: fresh game, empty history, cursor `-1`,
suggestion cleared; the chosen colour stays. -/
def handleReset (s : UIState) : UIState :=
  { s with game := initialGame, history := [], cursor := -1, suggestedMove := none }

/-- `handleExportPGN` of `ChessUI`: the exported text is `game.pgn()` of
the current game instance. -/
def handleExportPGN (s : UIState) : String := pgn s.game

/-- The move-attempt core of the board input handlers (`handleSquareClick`
and `handleDragEnd` of the Chessboard component): `position.move({from,
to, promotion: "q"})` on the shared `position` prop — the `game` state
object of `ChessUI`.  chess.js `move()` applies the move to the instance in
place, so the first component of the result is the state of that shared
object after the call; the second is the verbose move handed to `onMove`
(`none` models the caught throw of an invalid attempt). -/
def chessboardAttemptMove (g : Game) (sel target : Nat) : Game × Option MoveRec :=
  match g.applyMove ⟨sel, target, some .queen⟩ with
  | some (g2, mv) => (g2, some mv)
  | none => (g, none)

/-! ## Concrete fixtures shared by the theorems below -/

/-- A fixed `Math.random()` sample. -/
def half : Rand := ⟨1/2, by norm_num⟩

/-- The verbose record of the move e2–e4 (squares 12 and 28). -/
def e4rec : MoveRec := ⟨12, 28, none, .white, "e4"⟩

/-- The verbose record of the move e7–e5 (squares 52 and 36). -/
def e5rec : MoveRec := ⟨52, 36, none, .black, "e5"⟩

/-- The verbose record of the move g1–f3 (squares 6 and 21). -/
def nf3rec : MoveRec := ⟨6, 21, none, .white, "Nf3"⟩

/-- The verbose record of the move c7–c5 (squares 50 and 34). -/
def c5rec : MoveRec := ⟨50, 34, none, .black, "c5"⟩

/-- The component state right after choosing white. -/
def uiStart : UIState := startGame .white

/-- The component state after the move 1. e4 was applied. -/
def uiAfterE4 : UIState := uiHandleMove uiStart e4rec

/-- The component state after 1. e4 e5 2. Nf3 were applied. -/
def uiThree : UIState := uiHandleMove (uiHandleMove uiAfterE4 e5rec) nf3rec

/-! ## Helper lemmas on the timeline model -/

/-- Replay distributes over list append. -/
theorem replayG_append (xs ys : List MoveRec) (g : Game) :
    replayG g (xs ++ ys) = (replayG g xs).bind (fun g2 => replayG g2 ys) := by
  induction xs generalizing g with
  | nil => simp [replayG]
  | cons m rest ih =>
    simp only [List.cons_append, replayG]
    cases g.applyMove ⟨m.fromSq, m.toSq, m.promotion⟩ with
    | none => simp
    | some x => simp [ih]

/-- The outcome of `applyMove`, viewed through the new position and the
verbose record, depends on the instance only through its position. -/
theorem applyMove_map_pos (g1 g2 : Game) (i : MoveInput) (h : g1.pos = g2.pos) :
    (g1.applyMove i).map (fun x => (x.1.pos, x.2)) =
    (g2.applyMove i).map (fun x => (x.1.pos, x.2)) := by
  unfold Game.applyMove
  rw [h]
  cases moveImpl g2.pos i with
  | none => rfl
  | some x => cases x with | mk p2 mv => rfl

/-- `slice(0, e)` with a nonnegative end index is `take`. -/
theorem jsSliceTo_eq_take (l : List MoveRec) (e : Int) (h : 0 ≤ e) :
    jsSliceTo l e = l.take e.toNat := by
  unfold jsSliceTo
  rw [if_pos h]

/-- Invariant of the `ChessUI` timeline state: the cursor stays in the
contract range `[-1, len-1]` and the current position equals the replay of
`history[0..cursor]` from the initial position. -/
def TimelineInv (s : UIState) : Prop :=
  -1 ≤ s.cursor ∧ s.cursor < (s.history.length : Int) ∧
  ∃ g, replayG initialGame (s.history.take ((s.cursor + 1).toNat)) = some g ∧
    g.pos = s.game.pos

/-- States of the `ChessUI` component reachable from `startGame` through
the timeline operations.  Navigation is restricted to the documented index
contract (`-1 ≤ i`): the Move History list of the source only ever passes
indices of existing moves, and `-1` is the contract's lower bound. -/
inductive Reachable : UIState → Prop
  | start (c : Color) : Reachable (startGame c)
  | move {s : UIState} (m : MoveRec) : Reachable s → Reachable (uiHandleMove s m)
  | click {s s2 : UIState} {i : Int} : Reachable s → -1 ≤ i →
      handleMoveClick s i = some s2 → Reachable s2
  | undo {s s2 : UIState} : Reachable s → handleUndo s = some s2 → Reachable s2
  | reset {s : UIState} : Reachable s → Reachable (handleReset s)

theorem timelineInv_startGame (c : Color) : TimelineInv (startGame c) :=
  ⟨by simp [startGame], by simp [startGame], initialGame, rfl, rfl⟩

theorem timelineInv_reset (s : UIState) : TimelineInv (handleReset s) :=
  ⟨by simp [handleReset], by simp [handleReset], initialGame, rfl, rfl⟩

theorem timelineInv_move (s : UIState) (m : MoveRec) (h : TimelineInv s) :
    TimelineInv (uiHandleMove s m) := by
  obtain ⟨h1, h2, g0, hrep, hpos⟩ := h
  cases happ : (Game.fromPos s.game.pos).applyMove ⟨m.fromSq, m.toSq, m.promotion⟩ with
  | none =>
    have hstate : uiHandleMove s m = s := by unfold uiHandleMove; rw [happ]
    rw [hstate]
    exact ⟨h1, h2, g0, hrep, hpos⟩
  | some x =>
    obtain ⟨g2, mv⟩ := x
    have hstate : uiHandleMove s m = { s with
        game := g2,
        history := jsSliceTo s.history (s.cursor + 1) ++ [m],
        cursor := ((jsSliceTo s.history (s.cursor + 1) ++ [m]).length : Int) - 1,
        suggestedMove := if m.color == s.playerColor then none else s.suggestedMove } := by
      unfold uiHandleMove
      rw [happ]
    have hmap := applyMove_map_pos g0 (Game.fromPos s.game.pos)
      ⟨m.fromSq, m.toSq, m.promotion⟩ hpos
    rw [happ] at hmap
    cases hA : g0.applyMove ⟨m.fromSq, m.toSq, m.promotion⟩ with
    | none => rw [hA] at hmap; exact absurd hmap (by simp)
    | some y =>
      obtain ⟨gy, mvy⟩ := y
      rw [hA] at hmap
      simp only [Option.map_some'] at hmap
      have hgy : gy.pos = g2.pos := congrArg Prod.fst (Option.some.inj hmap)
      have hslice : jsSliceTo s.history (s.cursor + 1) =
          s.history.take (s.cursor + 1).toNat :=
        jsSliceTo_eq_take s.history (s.cursor + 1) (by omega)
      rw [hstate]
      refine ⟨?_, ?_, gy, ?_, ?_⟩
      · dsimp only
        omega
      · dsimp only
        omega
      · dsimp only
        have hlen : ((((jsSliceTo s.history (s.cursor + 1) ++ [m]).length : Int) - 1 + 1).toNat)
            = (jsSliceTo s.history (s.cursor + 1) ++ [m]).length := by omega
        rw [hlen, List.take_length, hslice, replayG_append, hrep]
        simp [replayG, hA]
      · exact hgy

theorem timelineInv_click (s s2 : UIState) (i : Int) (hi : -1 ≤ i)
    (h : handleMoveClick s i = some s2) (_hs : TimelineInv s) : TimelineInv s2 := by
  unfold handleMoveClick at h
  split at h
  · exact absurd h (by simp)
  · rename_i hlen
    cases hrep : replayG initialGame (s.history.take (i + 1).toNat) with
    | none => rw [hrep] at h; exact absurd h (by simp)
    | some g =>
      rw [hrep] at h
      obtain rfl := Option.some.inj h
      exact ⟨hi, by simpa using not_le.mp hlen, g, hrep, rfl⟩

theorem timelineInv_undo (s s2 : UIState) (h : handleUndo s = some s2)
    (hinv : TimelineInv s) : TimelineInv s2 := by
  obtain ⟨h1, h2, g0, hrep, hpos⟩ := hinv
  unfold handleUndo at h
  split at h
  · obtain rfl := Option.some.inj h
    exact ⟨h1, h2, g0, hrep, hpos⟩
  · split at h
    · exact absurd h (by simp)
    · rename_i hc hlen
      cases hrep2 : replayG initialGame (s.history.take s.cursor.toNat) with
      | none => rw [hrep2] at h; exact absurd h (by simp)
      | some g =>
        rw [hrep2] at h
        obtain rfl := Option.some.inj h
        refine ⟨by simp; omega, by simp; omega, g, ?_, rfl⟩
        have : (s.cursor - 1 + 1).toNat = s.cursor.toNat := by omega
        simpa [this] using hrep2

/-- Every reachable component state satisfies the timeline invariant. -/
theorem timelineInv_of_reachable (s : UIState) (h : Reachable s) : TimelineInv s := by
  induction h with
  | start c => exact timelineInv_startGame c
  | move m _ ih => exact timelineInv_move _ m ih
  | click _ hi hclick ih => exact timelineInv_click _ _ _ hi hclick ih
  | undo _ hundo ih => exact timelineInv_undo _ _ hundo ih
  | reset _ _ => exact timelineInv_reset _

/-- Navigation never mutates the recorded move sequence. -/
theorem handleMoveClick_history (s s2 : UIState) (i : Int)
    (h : handleMoveClick s i = some s2) : s2.history = s.history := by
  unfold handleMoveClick at h
  split at h
  · exact absurd h (by simp)
  · cases hrep : replayG initialGame (s.history.take (i + 1).toNat) with
    | none => rw [hrep] at h; exact absurd h (by simp)
    | some g =>
      rw [hrep] at h
      obtain rfl := Option.some.inj h
      rfl

/-! ## Claims about the game timeline -/

/-- C3: for every reachable component state — every sequence of legal moves
recorded through `handleMove` combined with in-contract navigation — the
active position equals the deterministic replay of `history[0..cursor]`
from the initial position (`cursor = -1` replays the empty prefix), and
navigation never modifies the recorded move sequence.  (Out-of-contract
navigation indices below `-1`, which the component never produces but its
`handleMoveClick` does not reject, are the subject of claim C5.) -/
theorem c3_timeline_replay_invariant (s : UIState) (hs : Reachable s) :
    (∃ g, replayG initialGame (s.history.take ((s.cursor + 1).toNat)) = some g ∧
      g.pos = s.game.pos) ∧
    (∀ i s2, handleMoveClick s i = some s2 → s2.history = s.history) :=
  ⟨(timelineInv_of_reachable s hs).2.2, fun i s2 h => handleMoveClick_history s s2 i h⟩

/-- Witness for C3 at the concrete reachable state after 1. e4 e5 2. Nf3. -/
theorem c3_witness :
    (∃ g, replayG initialGame (uiThree.history.take ((uiThree.cursor + 1).toNat)) = some g ∧
      g.pos = uiThree.game.pos) ∧
    (∀ i s2, handleMoveClick uiThree i = some s2 → s2.history = uiThree.history) :=
  c3_timeline_replay_invariant uiThree
    (Reachable.move nf3rec (Reachable.move e5rec (Reachable.move e4rec (Reachable.start .white))))

/-- C4: with three recorded moves and the cursor at 2, jumping to index 0
and then appending an accepted move `m3` truncates the dropped future and
appends: the history becomes `[m0, m3]` and the cursor 1. -/
theorem c4_truncate_append (s s1 : UIState) (m0 m1 m2 m3 : MoveRec)
    (hh : s.history = [m0, m1, m2]) (_hc : s.cursor = 2)
    (hjump : handleMoveClick s 0 = some s1)
    (happ : (Game.fromPos s1.game.pos).applyMove ⟨m3.fromSq, m3.toSq, m3.promotion⟩ ≠ none) :
    (uiHandleMove s1 m3).history = [m0, m3] ∧ (uiHandleMove s1 m3).cursor = 1 := by
  unfold handleMoveClick at hjump
  split at hjump
  · exact absurd hjump (by simp)
  · cases hrep : replayG initialGame (s.history.take ((0 : Int) + 1).toNat) with
    | none => rw [hrep] at hjump; exact absurd hjump (by simp)
    | some g =>
      rw [hrep] at hjump
      have hs1 : s1 = { s with game := g, cursor := 0 } := (Option.some.inj hjump).symm
      cases hA : (Game.fromPos s1.game.pos).applyMove ⟨m3.fromSq, m3.toSq, m3.promotion⟩ with
      | none => exact absurd hA happ
      | some x =>
        obtain ⟨g2, mv⟩ := x
        have hstate : uiHandleMove s1 m3 = { s1 with
            game := g2,
            history := jsSliceTo s1.history (s1.cursor + 1) ++ [m3],
            cursor := ((jsSliceTo s1.history (s1.cursor + 1) ++ [m3]).length : Int) - 1,
            suggestedMove := if m3.color == s1.playerColor then none
              else s1.suggestedMove } := by
          unfold uiHandleMove
          rw [hA]
        rw [hstate]
        have hh1 : s1.history = [m0, m1, m2] := by rw [hs1]; exact hh
        have hc1 : s1.cursor = 0 := by rw [hs1]
        constructor
        · dsimp only
          rw [hh1, hc1]
          rfl
        · dsimp only
          rw [hh1, hc1]
          rfl

/-- Witness state for C4: `uiThree` after jumping to index 0. -/
def uiJump0 : UIState := (handleMoveClick uiThree 0).getD uiThree

/-- Witness for C4 with the concrete moves 1. e4 e5 2. Nf3, a jump to move
index 0 and the appended reply 1... c5. -/
theorem c4_witness :
    (uiHandleMove uiJump0 c5rec).history = [e4rec, c5rec] ∧
    (uiHandleMove uiJump0 c5rec).cursor = 1 :=
  c4_truncate_append uiThree uiJump0 e4rec e5rec nf3rec c5rec (by decide) (by decide)
    (by decide) (by decide)

/-- C5 counterexample: after 1. e4 (cursor 0), the out-of-range jump to
index -2 does not fail and does not leave the state unchanged: it completes
normally, resets the active game and sets the cursor to -2. -/
theorem c5_counterexample :
    uiAfterE4.cursor = 0 ∧
    handleMoveClick uiAfterE4 (-2) =
      some { uiAfterE4 with game := initialGame, cursor := -2 } :=
  ⟨by decide, by decide⟩

/-- C5 amended: a jump to an index at or past the history length throws out
of the handler before any state update (an undefined entry reaches
`newGame.move`), leaving the state unchanged; but a jump to an index below
-1 is not rejected: the replay loop runs zero times and the handler sets
the active game to a fresh initial instance and the cursor to the given
out-of-range index. -/
theorem c5_jump_out_of_range (s : UIState) (i : Int) :
    ((s.history.length : Int) ≤ i → handleMoveClick s i = none) ∧
    (i < -1 → handleMoveClick s i = some { s with game := initialGame, cursor := i }) := by
  constructor
  · intro h
    unfold handleMoveClick
    rw [if_pos h]
  · intro h
    unfold handleMoveClick
    rw [if_neg (by omega)]
    have htake : (i + 1).toNat = 0 := by omega
    rw [htake]
    simp [replayG]

/-- Witness for C5: a jump past the end fails with the state unchanged, a
jump below -1 completes with the cursor out of range. -/
theorem c5_witness :
    handleMoveClick uiAfterE4 5 = none ∧
    handleMoveClick uiAfterE4 (-3) =
      some { uiAfterE4 with game := initialGame, cursor := -3 } :=
  ⟨(c5_jump_out_of_range uiAfterE4 5).1 (by decide),
   (c5_jump_out_of_range uiAfterE4 (-3)).2 (by decide)⟩

/-- The component state after 1. e4 with a displayed suggestion. -/
def sSugg : UIState := { uiAfterE4 with suggestedMove := some (12, 28) }

/-- C10 counterexample: at the initial position `handleUndo` completes
normally with the state unchanged — nothing reports a failure — and away
from the initial position it is not exactly `jumpTo(cursor - 1)`: it
additionally clears the displayed suggestion, so the two results differ. -/
theorem c10_counterexample :
    handleUndo (startGame .white) = some (startGame .white) ∧
    handleUndo sSugg ≠ handleMoveClick sSugg (sSugg.cursor - 1) :=
  ⟨by decide, by decide⟩

/-- C10 amended: at a negative cursor `handleUndo` is a silent no-op (a
normal return, no failure signalled); otherwise it agrees with
`jumpTo(cursor - 1)` except that it additionally clears the displayed
suggestion. -/
theorem c10_stepback (s : UIState) :
    (s.cursor < 0 → handleUndo s = some s) ∧
    (0 ≤ s.cursor → handleUndo s =
      (handleMoveClick s (s.cursor - 1)).map fun t => { t with suggestedMove := none }) := by
  constructor
  · intro h
    unfold handleUndo
    rw [if_pos h]
  · intro h
    unfold handleUndo handleMoveClick
    rw [if_neg (by omega)]
    have hidx : s.cursor - 1 + 1 = s.cursor := by omega
    rw [hidx]
    by_cases hlen : (s.history.length : Int) < s.cursor
    · rw [if_pos hlen, if_pos (by omega)]
      rfl
    · rw [if_neg hlen, if_neg (by omega)]
      cases hrep : replayG initialGame (s.history.take s.cursor.toNat) with
      | none => rfl
      | some g => rfl

/-- Witness for C10: the silent no-op at the initial position and the
agreement with the navigation handler after 1. e4. -/
theorem c10_witness :
    handleUndo uiStart = some uiStart ∧
    handleUndo sSugg = (handleMoveClick sSugg (sSugg.cursor - 1)).map
      (fun t => { t with suggestedMove := none }) :=
  ⟨(c10_stepback uiStart).1 (by decide), (c10_stepback sSugg).2 (by decide)⟩

/-! ## Claims about position immutability and the PGN export -/

/-- C6 counterexample: a successful click-move e2–e4 from the initial
position returns a move record, and afterwards the shared position object —
the `game` state object of `ChessUI`, passed to the board as the `position`
prop — no longer equals the instance that was current before the move: the
board handler mutated it in place. -/
theorem c6_counterexample :
    (chessboardAttemptMove initialGame 12 28).2.isSome ∧
    (chessboardAttemptMove initialGame 12 28).1 ≠ initialGame :=
  ⟨by decide, by decide⟩

/-- C6 amended: on a successful board move the shared position object is
mutated in place to exactly the applied-move result (new position, SAN
appended to the instance history); only the timeline handler `handleMove`
avoids mutating the stored instance, by building the new game from a fresh
instance reconstructed from the current position. -/
theorem c6_shared_position_mutation :
    (∀ (g g2 : Game) (sel target : Nat) (mv : MoveRec),
      chessboardAttemptMove g sel target = (g2, some mv) →
      ∃ p2, moveImpl g.pos ⟨sel, target, some .queen⟩ = some (p2, mv) ∧
        g2 = ⟨p2, g.startPos, g.sans ++ [mv.san]⟩) ∧
    (∀ (s : UIState) (m : MoveRec),
      uiHandleMove s m = s ∨ (uiHandleMove s m).game.startPos = s.game.pos) := by
  constructor
  · intro g g2 sel target mv h
    unfold chessboardAttemptMove Game.applyMove at h
    cases hmi : moveImpl g.pos ⟨sel, target, some .queen⟩ with
    | none =>
      rw [hmi] at h
      exact absurd (congrArg (fun x => x.2) h) (by simp)
    | some x =>
      obtain ⟨p2, mv2⟩ := x
      rw [hmi] at h
      have h1 : (⟨p2, g.startPos, g.sans ++ [mv2.san]⟩ : Game) = g2 :=
        congrArg Prod.fst h
      have h2 : some mv2 = some mv := congrArg Prod.snd h
      obtain rfl := Option.some.inj h2
      exact ⟨p2, rfl, h1.symm⟩
  · intro s m
    cases happ : (Game.fromPos s.game.pos).applyMove ⟨m.fromSq, m.toSq, m.promotion⟩ with
    | none =>
      left
      unfold uiHandleMove
      rw [happ]
    | some x =>
      right
      obtain ⟨g2, mv⟩ := x
      have hgame : (uiHandleMove s m).game = g2 := by
        unfold uiHandleMove
        rw [happ]
      rw [hgame]
      unfold Game.applyMove at happ
      cases hmi : moveImpl (Game.fromPos s.game.pos).pos ⟨m.fromSq, m.toSq, m.promotion⟩ with
      | none => rw [hmi] at happ; exact absurd happ (by simp)
      | some y =>
        obtain ⟨p2, mv2⟩ := y
        rw [hmi] at happ
        have h1 := congrArg (fun z => z.1.startPos) (Option.some.inj happ)
        exact h1.symm

/-- The state of the shared position object after the click-move e2–e4. -/
def gAfterE4board : Game := (chessboardAttemptMove initialGame 12 28).1

/-- The verbose record of e2–e4 as produced by the rules engine. -/
def mvE4 : MoveRec := toMoveRec startPosition ⟨12, 28, none⟩

/-- Witness for C6: the concrete mutation of the shared object on e2–e4 and
the reconstruction discipline of `handleMove`. -/
theorem c6_witness :
    (∃ p2, moveImpl initialGame.pos ⟨12, 28, some .queen⟩ = some (p2, mvE4) ∧
      gAfterE4board = ⟨p2, initialGame.startPos, initialGame.sans ++ [mvE4.san]⟩) ∧
    (uiHandleMove uiStart e4rec = uiStart ∨
      (uiHandleMove uiStart e4rec).game.startPos = uiStart.game.pos) :=
  ⟨c6_shared_position_mutation.1 initialGame gAfterE4board 12 28 mvE4 (by decide),
   c6_shared_position_mutation.2 uiStart e4rec⟩

/-- C8 counterexample: after the moves 1. e4 e5 2. Nf3 were appended
through `handleMove`, the export is the text 2. Nf3 — the transcript of the
one move applied to the current (FEN-reconstructed) instance — and not the
claimed full transcript 1. e4 e5 2. Nf3, although all three moves are
recorded in the timeline. -/
theorem c8_counterexample :
    uiThree.history.map MoveRec.san = ["e4", "e5", "Nf3"] ∧
    handleExportPGN uiThree = "2. Nf3" ∧
    handleExportPGN uiThree ≠ "1. e4 e5 2. Nf3" :=
  ⟨by decide, by decide, by decide⟩

/-- The state reached from `uiThree` by navigating to move index 2. -/
def uiNav2 : UIState := (handleMoveClick uiThree 2).getD uiThree

/-- C8 amended: the export returns `game.pgn()` of the current instance,
which renders exactly the moves applied to that instance since it was
constructed — after an append, only that one appended move (the instance
was rebuilt from the pre-move FEN); after a navigation to index `i`, the
replayed moves `0..i`.  The full transcript therefore appears exactly when
the current instance replayed the whole history, e.g. after navigating to
the last index; the export depends on the cursor. -/
theorem c8_export_current_object :
    (∀ (s : UIState) (m : MoveRec) (g2 : Game) (mv : MoveRec),
      (Game.fromPos s.game.pos).applyMove ⟨m.fromSq, m.toSq, m.promotion⟩ = some (g2, mv) →
      (uiHandleMove s m).game.sans = [mv.san]) ∧
    (∀ (s s2 : UIState) (i : Int), handleMoveClick s i = some s2 →
      replayG initialGame (s.history.take (i + 1).toNat) = some s2.game) ∧
    (handleMoveClick uiThree 2).map handleExportPGN = some "1. e4 e5 2. Nf3" := by
  refine ⟨?_, ?_, by decide⟩
  · intro s m g2 mv h
    have hgame : (uiHandleMove s m).game = g2 := by
      unfold uiHandleMove
      rw [h]
    rw [hgame]
    unfold Game.applyMove at h
    cases hmi : moveImpl (Game.fromPos s.game.pos).pos ⟨m.fromSq, m.toSq, m.promotion⟩ with
    | none => rw [hmi] at h; exact absurd h (by simp)
    | some y =>
      obtain ⟨p2, mv2⟩ := y
      rw [hmi] at h
      have h1 := congrArg (fun z => z.1.sans) (Option.some.inj h)
      have h2 := congrArg (fun z => z.2.san) (Option.some.inj h)
      simp only at h1 h2
      rw [← h1, ← h2]
      rfl
  · intro s s2 i h
    unfold handleMoveClick at h
    split at h
    · exact absurd h (by simp)
    · cases hrep : replayG initialGame (s.history.take (i + 1).toNat) with
      | none => rw [hrep] at h; exact absurd h (by simp)
      | some g =>
        rw [hrep] at h
        obtain rfl := Option.some.inj h
        rfl

/-- Witness for C8: the export content after an append and the replay
equation after a navigation, at concrete states. -/
theorem c8_witness :
    (uiHandleMove uiStart e4rec).game.sans = [mvE4.san] ∧
    replayG initialGame (uiThree.history.take ((2 : Int) + 1).toNat) = some uiNav2.game :=
  ⟨c8_export_current_object.1 uiStart e4rec (uiHandleMove uiStart e4rec).game mvE4 (by decide),
   c8_export_current_object.2.1 uiThree uiNav2 2 (by decide)⟩

/-! ## Helper lemmas on the bridge model -/

theorem resolveReq_moveCallbacks (s : BridgeState) (id : Nat) (v : String) :
    (resolveReq s id v).moveCallbacks = s.moveCallbacks := by
  unfold resolveReq
  split <;> rfl

theorem resolveReq_pendingTimeouts (s : BridgeState) (id : Nat) (v : String) :
    (resolveReq s id v).pendingTimeouts = s.pendingTimeouts := by
  unfold resolveReq
  split <;> rfl

theorem resolveReq_waitingReady (s : BridgeState) (id : Nat) (v : String) :
    (resolveReq s id v).waitingReady = s.waitingReady := by
  unfold resolveReq
  split <;> rfl

theorem resolveReq_hasInitError (s : BridgeState) (id : Nat) (v : String) :
    (resolveReq s id v).hasInitError = s.hasInitError := by
  unfold resolveReq
  split <;> rfl

theorem resolveReq_sent (s : BridgeState) (id : Nat) (v : String) :
    (resolveReq s id v).sent = s.sent := by
  unfold resolveReq
  split <;> rfl

theorem resolveReq_lookup_self (s : BridgeState) (id : Nat) (v : String)
    (h : s.results.lookup id = none) :
    (resolveReq s id v).results.lookup id = some v := by
  unfold resolveReq
  rw [h]
  simp [List.lookup]

theorem resolveReq_lookup_ne (s : BridgeState) (id j : Nat) (v : String) (h : j ≠ id) :
    (resolveReq s id v).results.lookup j = s.results.lookup j := by
  have hb : (j == id) = false := beq_eq_false_iff_ne.mpr h
  unfold resolveReq
  split
  · rfl
  · simp [List.lookup, hb]

theorem resolveReq_lookup_some_stable (s : BridgeState) (id j : Nat) (v v0 : String)
    (h : s.results.lookup j = some v0) :
    (resolveReq s id v).results.lookup j = some v0 := by
  by_cases hji : j = id
  · subst hji
    unfold resolveReq
    rw [h]
    exact h
  · rw [resolveReq_lookup_ne s id j v hji]
    exact h

theorem resolveReq_lookup_isSome (s : BridgeState) (id j : Nat) (v : String)
    (h : (s.results.lookup j).isSome) :
    ((resolveReq s id v).results.lookup j).isSome := by
  obtain ⟨v0, hv0⟩ := Option.isSome_iff_exists.mp h
  rw [resolveReq_lookup_some_stable s id j v v0 hv0]
  rfl

theorem resolveReq_lookup_isSome_self (s : BridgeState) (id : Nat) (v : String) :
    ((resolveReq s id v).results.lookup id).isSome := by
  cases h : s.results.lookup id with
  | none => rw [resolveReq_lookup_self s id v h]; rfl
  | some v0 => rw [resolveReq_lookup_some_stable s id id v v0 h]; rfl

theorem foldResolve_lookup_some_stable (ids : List Nat) (mv : String) :
    ∀ (s : BridgeState) (j : Nat) (v0 : String), s.results.lookup j = some v0 →
    ((ids.foldl (fun acc id => resolveReq acc id mv) s).results.lookup j) = some v0 := by
  induction ids with
  | nil => intro s j v0 h; exact h
  | cons i rest ih =>
    intro s j v0 h
    exact ih _ _ _ (resolveReq_lookup_some_stable s i j mv v0 h)

theorem foldResolve_lookup_isSome (ids : List Nat) (mv : String) :
    ∀ (s : BridgeState) (j : Nat), (s.results.lookup j).isSome →
    ((ids.foldl (fun acc id => resolveReq acc id mv) s).results.lookup j).isSome := by
  induction ids with
  | nil => intro s j h; exact h
  | cons i rest ih =>
    intro s j h
    exact ih _ _ (resolveReq_lookup_isSome s i j mv h)

theorem foldResolve_lookup_mem (ids : List Nat) (mv : String) :
    ∀ (s : BridgeState) (j : Nat), j ∈ ids → s.results.lookup j = none →
    ((ids.foldl (fun acc id => resolveReq acc id mv) s).results.lookup j) = some mv := by
  induction ids with
  | nil => intro s j h _; exact absurd h (by simp)
  | cons i rest ih =>
    intro s j hmem hnone
    by_cases hji : j = i
    · subst hji
      exact foldResolve_lookup_some_stable rest mv _ j mv
        (resolveReq_lookup_self s j mv hnone)
    · have hmem2 : j ∈ rest := by
        cases List.mem_cons.mp hmem with
        | inl h => exact absurd h hji
        | inr h => exact h
      exact ih _ _ hmem2 (by rw [resolveReq_lookup_ne s i j mv hji]; exact hnone)

/-! ## Claim C1: the bestmove handler versus stale responses -/

/-- C1 amended: when a `bestmove` response arrives, the handler calls every
queued resolve callback — for older and newer requests alike — with that
same response and empties the queue; hence a request issued while an
earlier one was still pending resolves with whatever response arrives
first, which can be the stale response belonging to the earlier request.
Only a response arriving when no callback is queued is dropped (the state
is unchanged). -/
theorem c1_bestmove_broadcast (s : BridgeState) (mv : String) :
    (step s (.engineMsg (.bestmove mv))).moveCallbacks = [] ∧
    (∀ id, id ∈ s.moveCallbacks → s.results.lookup id = none →
      (step s (.engineMsg (.bestmove mv))).results.lookup id = some mv) ∧
    (s.moveCallbacks = [] → step s (.engineMsg (.bestmove mv)) = s) := by
  refine ⟨rfl, ?_, ?_⟩
  · intro id hmem hnone
    simp only [step]
    exact foldResolve_lookup_mem s.moveCallbacks mv s id hmem hnone
  · intro h
    simp only [step, h, List.foldl_nil]
    rw [← h]

/-- The bridge state with two suggestion requests issued while the first
response is still outstanding, then the two responses arriving in order. -/
def c1trace : BridgeState := runBridge true
  [.engineMsg .readyok, .issue 0 initialGame half, .issue 1 initialGame half,
   .engineMsg (.bestmove "e2e4"), .engineMsg (.bestmove "d2d4")]

/-- C1 counterexample: request 1 was issued while request 0 was still
unresolved; the late response e2e4 belonging to request 0 arrived after
request 1 was issued, and request 1 resolved with that stale e2e4 — not
with its own response d2d4, which found no registered waiter and was
dropped. -/
theorem c1_counterexample :
    c1trace.results.lookup 1 = some "e2e4" ∧
    c1trace.results.lookup 0 = some "e2e4" ∧
    c1trace.results.lookup 1 ≠ some "d2d4" :=
  ⟨by decide, by decide, by decide⟩

/-- The bridge state with two requests queued and no response yet. -/
def c1pre : BridgeState := runBridge true
  [.engineMsg .readyok, .issue 0 initialGame half, .issue 1 initialGame half]

/-- Witness for C1 at the concrete two-request state. -/
theorem c1_witness :
    (step c1pre (.engineMsg (.bestmove "e2e4"))).moveCallbacks = [] ∧
    (step c1pre (.engineMsg (.bestmove "e2e4"))).results.lookup 1 = some "e2e4" ∧
    step { c1pre with moveCallbacks := [] } (.engineMsg (.bestmove "e2e4")) =
      { c1pre with moveCallbacks := [] } :=
  ⟨(c1_bestmove_broadcast c1pre "e2e4").1,
   (c1_bestmove_broadcast c1pre "e2e4").2.1 1 (by decide) (by decide),
   (c1_bestmove_broadcast { c1pre with moveCallbacks := [] } "e2e4").2.2 rfl⟩

/-! ## Claim C7: the Failed state is terminal -/

theorem afterReady_hasInitError (s : BridgeState) (id : Nat) (g : Game) (r : Rand) :
    (afterReady s id g r).hasInitError = s.hasInitError := by
  unfold afterReady
  split
  · exact resolveReq_hasInitError s id _
  · rfl

theorem foldAfterReady_hasInitError (l : List (Nat × Game × Rand)) :
    ∀ s : BridgeState,
      (l.foldl (fun acc w => afterReady acc w.1 w.2.1 w.2.2) s).hasInitError =
        s.hasInitError := by
  induction l with
  | nil => intro s; rfl
  | cons w rest ih =>
    intro s
    rw [List.foldl_cons, ih, afterReady_hasInitError]

theorem foldResolve_hasInitError (ids : List Nat) (mv : String) :
    ∀ s : BridgeState,
      (ids.foldl (fun acc id => resolveReq acc id mv) s).hasInitError =
        s.hasInitError := by
  induction ids with
  | nil => intro s; rfl
  | cons i rest ih =>
    intro s
    rw [List.foldl_cons, ih, resolveReq_hasInitError]

/-- No event ever modifies the `hasInitError` flag. -/
theorem step_hasInitError (s : BridgeState) (e : BridgeEvent) :
    (step s e).hasInitError = s.hasInitError := by
  cases e with
  | issue id g r =>
    simp only [step]
    split
    · exact afterReady_hasInitError s id g r
    · rfl
  | engineMsg m =>
    cases m with
    | readyok =>
      simp only [step]
      rw [foldAfterReady_hasInitError]
    | bestmove mv =>
      simp only [step]
      rw [foldResolve_hasInitError]
    | other t => rfl
  | fireTimeout id r =>
    simp only [step]
    cases hl : s.pendingTimeouts.lookup id with
    | none => rfl
    | some g =>
      dsimp only
      split
      · rw [resolveReq_hasInitError]
      · rfl

/-- C7: a failed construction sets `hasInitError` and resolves the ready
promise immediately with no command ever posted; the flag is never cleared
by any later event; and in that state every `getBestMove` call resolves at
once with the fallback answer, touching nothing but the results — in
particular posting no command to the process. -/
theorem c7_failed_terminal :
    (initState false).hasInitError = true ∧
    (initState false).readyResolved = true ∧
    (initState false).sent = [] ∧
    (∀ (s : BridgeState) (e : BridgeEvent), s.hasInitError = true →
      (step s e).hasInitError = true) ∧
    (∀ (s : BridgeState) (id : Nat) (g : Game) (r : Rand),
      s.hasInitError = true → s.readyResolved = true → s.results.lookup id = none →
      step s (.issue id g r) =
        { s with results := (id, simulateBestMove g r) :: s.results }) := by
  refine ⟨rfl, rfl, rfl, ?_, ?_⟩
  · intro s e h
    rw [step_hasInitError]
    exact h
  · intro s id g r h1 h2 h3
    simp only [step]
    rw [if_pos h2]
    unfold afterReady
    rw [h1]
    simp only [Bool.true_or, if_true]
    unfold resolveReq
    rw [h3]
    simp [h1]

/-- Witness for C7: the failed-construction state routes a request straight
to the fallback with nothing sent, and the flag survives a message. -/
theorem c7_witness :
    step (initState false) (.issue 0 initialGame half) =
      { initState false with results := [(0, simulateBestMove initialGame half)] } ∧
    (step (initState false) (.engineMsg (.bestmove "e2e4"))).hasInitError = true :=
  ⟨c7_failed_terminal.2.2.2.2 (initState false) 0 initialGame half rfl rfl rfl,
   c7_failed_terminal.2.2.2.1 (initState false) (.engineMsg (.bestmove "e2e4")) rfl⟩

/-! ## Claim C2: resolution behaviour of `getBestMove` -/

/-- The event is not a `getBestMove` call with request identity `id`. -/
def notIssueId (id : Nat) : BridgeEvent → Prop
  | .issue j _ _ => j ≠ id
  | _ => True

/-- The event is not a worker message: the process never responds. -/
def notMsg : BridgeEvent → Prop
  | .engineMsg _ => False
  | _ => True

theorem lookup_append {β : Type} (l1 l2 : List (Nat × β)) (k : Nat) :
    (l1 ++ l2).lookup k =
      match l1.lookup k with
      | some v => some v
      | none => l2.lookup k := by
  induction l1 with
  | nil => rfl
  | cons a rest ih =>
    obtain ⟨ak, av⟩ := a
    cases hb : (k == ak) with
    | true => simp [List.lookup, hb]
    | false => simp [List.lookup, hb, ih]

theorem lookup_eraseP_ne {β : Type} (l : List (Nat × β)) (j k : Nat) (h : k ≠ j) :
    (l.eraseP (fun t => t.1 == j)).lookup k = l.lookup k := by
  have hkj : (k == j) = false := beq_eq_false_iff_ne.mpr h
  induction l with
  | nil => rfl
  | cons a rest ih =>
    obtain ⟨ak, av⟩ := a
    by_cases haj : ak = j
    · subst haj
      simp [List.eraseP_cons, List.lookup, hkj]
    · have hb : ((ak, av).1 == j) = false := beq_eq_false_iff_ne.mpr haj
      by_cases hk : k = ak
      · subst hk
        simp [List.eraseP_cons, hb, List.lookup]
      · have hbk : (k == ak) = false := beq_eq_false_iff_ne.mpr hk
        simp [List.eraseP_cons, hb, List.lookup, hbk, ih]

theorem afterReady_waitingReady (s : BridgeState) (id : Nat) (g : Game) (r : Rand) :
    (afterReady s id g r).waitingReady = s.waitingReady := by
  unfold afterReady
  split
  · exact resolveReq_waitingReady s id _
  · rfl

theorem afterReady_results_isSome (s : BridgeState) (id : Nat) (g : Game) (r : Rand)
    (j : Nat) (h : (s.results.lookup j).isSome) :
    ((afterReady s id g r).results.lookup j).isSome := by
  unfold afterReady
  split
  · exact resolveReq_lookup_isSome s id j _ h
  · exact h

theorem foldAfterReady_results_isSome (l : List (Nat × Game × Rand)) :
    ∀ (s : BridgeState) (j : Nat), (s.results.lookup j).isSome →
    (((l.foldl (fun acc w => afterReady acc w.1 w.2.1 w.2.2) s).results.lookup j)).isSome := by
  induction l with
  | nil => intro s j h; exact h
  | cons w rest ih =>
    intro s j h
    exact ih _ _ (afterReady_results_isSome s w.1 w.2.1 w.2.2 j h)

/-- No event ever removes a recorded resolution. -/
theorem step_results_isSome (s : BridgeState) (e : BridgeEvent) (j : Nat)
    (h : (s.results.lookup j).isSome) : ((step s e).results.lookup j).isSome := by
  cases e with
  | issue id g r =>
    simp only [step]
    split
    · exact afterReady_results_isSome s id g r j h
    · exact h
  | engineMsg m =>
    cases m with
    | readyok =>
      simp only [step]
      exact foldAfterReady_results_isSome _ _ _ h
    | bestmove mv =>
      simp only [step]
      exact foldResolve_lookup_isSome _ _ _ _ h
    | other t => exact h
  | fireTimeout id r =>
    simp only [step]
    cases hl : s.pendingTimeouts.lookup id with
    | none => exact h
    | some g =>
      dsimp only
      split
      · exact resolveReq_lookup_isSome _ _ _ _ h
      · exact h

theorem afterReady_pending (s : BridgeState) (idw : Nat) (gw : Game) (rw2 : Rand)
    (id : Nat) (g : Game) (_hne : idw ≠ id)
    (h1 : id ∈ s.moveCallbacks) (h2 : s.pendingTimeouts.lookup id = some g) :
    id ∈ (afterReady s idw gw rw2).moveCallbacks ∧
      (afterReady s idw gw rw2).pendingTimeouts.lookup id = some g := by
  unfold afterReady
  split
  · rw [resolveReq_moveCallbacks, resolveReq_pendingTimeouts]
    exact ⟨h1, h2⟩
  · constructor
    · exact List.mem_append_left _ h1
    · show (s.pendingTimeouts ++ [(idw, gw)]).lookup id = some g
      rw [lookup_append, h2]

/-- State predicate for claim C2: the request `id` (for game `g`) has
either resolved, or its callback and fallback timer are both registered
and no suspended call shares its identity. -/
def PendingFor (id : Nat) (g : Game) (s : BridgeState) : Prop :=
  (s.results.lookup id).isSome ∨
  (id ∈ s.moveCallbacks ∧ s.pendingTimeouts.lookup id = some g ∧
    ∀ w ∈ s.waitingReady, w.1 ≠ id)

theorem foldAfterReady_pending (id : Nat) (g : Game) :
    ∀ (l : List (Nat × Game × Rand)), (∀ w ∈ l, w.1 ≠ id) →
    ∀ s : BridgeState, id ∈ s.moveCallbacks → s.pendingTimeouts.lookup id = some g →
    (∀ w ∈ s.waitingReady, w.1 ≠ id) →
    (id ∈ (l.foldl (fun acc w => afterReady acc w.1 w.2.1 w.2.2) s).moveCallbacks ∧
     (l.foldl (fun acc w => afterReady acc w.1 w.2.1 w.2.2) s).pendingTimeouts.lookup id
       = some g ∧
     ∀ w ∈ (l.foldl (fun acc w => afterReady acc w.1 w.2.1 w.2.2) s).waitingReady,
       w.1 ≠ id) := by
  intro l
  induction l with
  | nil => intro _ s h1 h2 h3; exact ⟨h1, h2, h3⟩
  | cons w rest ih =>
    intro hall s h1 h2 h3
    have hw : w.1 ≠ id := hall w (List.mem_cons_self w rest)
    have hp := afterReady_pending s w.1 w.2.1 w.2.2 id g hw h1 h2
    refine ih (fun x hx => hall x (List.mem_cons_of_mem w hx)) _ hp.1 hp.2 ?_
    rw [afterReady_waitingReady]
    exact h3

/-- The pending-or-resolved predicate is preserved by every event that is
not a reuse of the same request identity. -/
theorem pendingFor_step (id : Nat) (g : Game) (s : BridgeState) (e : BridgeEvent)
    (h : PendingFor id g s) (he : notIssueId id e) : PendingFor id g (step s e) := by
  cases h with
  | inl hres => exact Or.inl (step_results_isSome s e id hres)
  | inr hp =>
    obtain ⟨h1, h2, h3⟩ := hp
    cases e with
    | issue j gj rj =>
      have hji : j ≠ id := he
      simp only [step]
      split
      · right
        obtain ⟨ha, hb⟩ := afterReady_pending s j gj rj id g hji h1 h2
        refine ⟨ha, hb, ?_⟩
        rw [afterReady_waitingReady]
        exact h3
      · right
        refine ⟨h1, h2, ?_⟩
        intro w hw
        cases List.mem_append.mp hw with
        | inl hin => exact h3 w hin
        | inr hin =>
          have hweq : w = (j, gj, rj) := by simpa using hin
          rw [hweq]
          exact hji
    | engineMsg m =>
      cases m with
      | readyok =>
        simp only [step]
        right
        exact foldAfterReady_pending id g s.waitingReady h3 _ h1 h2 (by intro w hw; cases hw)
      | bestmove mv =>
        left
        simp only [step]
        cases hres : s.results.lookup id with
        | some v =>
          exact foldResolve_lookup_isSome _ _ _ _ (by rw [hres]; rfl)
        | none =>
          rw [foldResolve_lookup_mem s.moveCallbacks mv s id h1 hres]
          rfl
      | other t => exact Or.inr ⟨h1, h2, h3⟩
    | fireTimeout j rj =>
      simp only [step]
      cases hl : s.pendingTimeouts.lookup j with
      | none => exact Or.inr ⟨h1, h2, h3⟩
      | some gj =>
        dsimp only
        by_cases hji : j = id
        · subst hji
          have hcont : s.moveCallbacks.contains j = true := by
            simp only [List.contains]
            exact List.elem_iff.mpr h1
          rw [if_pos hcont]
          exact Or.inl (resolveReq_lookup_isSome_self _ _ _)
        · have hidj : id ≠ j := fun hh => hji hh.symm
          split
          · right
            refine ⟨?_, ?_, ?_⟩
            · rw [resolveReq_moveCallbacks]
              exact (List.mem_erase_of_ne hidj).mpr h1
            · rw [resolveReq_pendingTimeouts]
              show ((s.pendingTimeouts.eraseP (fun t => t.1 == j)).lookup id) = some g
              rw [lookup_eraseP_ne _ _ _ hidj]
              exact h2
            · rw [resolveReq_waitingReady]
              exact h3
          · right
            refine ⟨h1, ?_, h3⟩
            show ((s.pendingTimeouts.eraseP (fun t => t.1 == j)).lookup id) = some g
            rw [lookup_eraseP_ne _ _ _ hidj]
            exact h2

theorem pendingFor_fold (id : Nat) (g : Game) :
    ∀ (evs : List BridgeEvent), (∀ e ∈ evs, notIssueId id e) →
    ∀ s : BridgeState, PendingFor id g s → PendingFor id g (evs.foldl step s) := by
  intro evs
  induction evs with
  | nil => intro _ s h; exact h
  | cons e rest ih =>
    intro hall s h
    exact ih (fun x hx => hall x (List.mem_cons_of_mem e hx)) _
      (pendingFor_step id g s e h (hall e (List.mem_cons_self e rest)))

/-- Issuing a request in a ready, healthy bridge registers its callback and
its fallback timer. -/
theorem pendingFor_issue (id : Nat) (g : Game) (r : Rand) (s : BridgeState)
    (h1 : s.readyResolved = true) (h2 : s.hasInitError = false)
    (h3 : s.engineExists = true) (h4 : s.pendingTimeouts.lookup id = none)
    (h5 : ∀ w ∈ s.waitingReady, w.1 ≠ id) :
    PendingFor id g (step s (.issue id g r)) := by
  simp only [step]
  rw [if_pos h1]
  unfold afterReady
  rw [h2, h3]
  rw [if_neg (by decide)]
  right
  refine ⟨?_, ?_, ?_⟩
  · exact List.mem_append_right _ (by simp)
  · show ((s.pendingTimeouts ++ [(id, g)]).lookup id) = some g
    rw [lookup_append, h4]
    simp [List.lookup]
  · exact h5

/-- A registered fallback timer firing resolves the request if nothing else
already did. -/
theorem pendingFor_fireTimeout (id : Nat) (g : Game) (s : BridgeState) (rt : Rand)
    (h : PendingFor id g s) :
    ((step s (.fireTimeout id rt)).results.lookup id).isSome := by
  cases h with
  | inl hres => exact step_results_isSome s _ id hres
  | inr hp =>
    obtain ⟨h1, h2, _⟩ := hp
    simp only [step]
    rw [h2]
    dsimp only
    have hcont : s.moveCallbacks.contains id = true := by
      simp only [List.contains]
      exact List.elem_iff.mpr h1
    rw [if_pos hcont]
    exact resolveReq_lookup_isSome_self _ _ _

/-- Bridge states in which no request ever got past the readiness gate. -/
def Unstarted (s : BridgeState) : Prop :=
  s.readyResolved = false ∧ s.moveCallbacks = [] ∧ s.pendingTimeouts = [] ∧
    s.results = []

theorem unstarted_step (s : BridgeState) (e : BridgeEvent) (h : Unstarted s)
    (he : notMsg e) : Unstarted (step s e) := by
  obtain ⟨h1, h2, h3, h4⟩ := h
  cases e with
  | issue id g r =>
    simp only [step]
    rw [if_neg (by simp [h1])]
    exact ⟨h1, h2, h3, h4⟩
  | engineMsg m => exact he.elim
  | fireTimeout id r =>
    simp only [step]
    rw [h3]
    exact ⟨h1, h2, h3, h4⟩

theorem unstarted_fold :
    ∀ (evs : List BridgeEvent), (∀ e ∈ evs, notMsg e) →
    ∀ s : BridgeState, Unstarted s → Unstarted (evs.foldl step s) := by
  intro evs
  induction evs with
  | nil => intro _ s h; exact h
  | cons e rest ih =>
    intro hall s h
    exact ih (fun x hx => hall x (List.mem_cons_of_mem e hx)) _
      (unstarted_step s e h (hall e (List.mem_cons_self e rest)))

theorem moveToUci_ne_empty (m : MoveRec) : moveToUci m ≠ "" := by
  unfold moveToUci
  intro h
  have hl := congrArg String.length h
  rw [String.length_append, String.length_append] at hl
  have h2 : (squareName m.fromSq).length = 2 := rfl
  have h3 : (squareName m.toSq).length = 2 := rfl
  rw [h2, h3, show ("" : String).length = 0 from rfl] at hl
  omega

theorem simulateBestMove_eq_empty_iff (g : Game) (r : Rand) :
    simulateBestMove g r = "" ↔ legalMoves g.pos = [] := by
  unfold simulateBestMove
  by_cases h : (movesVerbose g.pos).length = 0
  · rw [dif_pos h]
    simp only [movesVerbose, List.length_map] at h
    simp [List.length_eq_zero.mp h]
  · rw [dif_neg h]
    constructor
    · intro huci
      exact absurd huci (moveToUci_ne_empty _)
    · intro hlm
      exfalso
      exact h (by simp [movesVerbose, hlm])

/-- C2 amended: `getBestMove` resolves by its fallback timeout — with the
fallback chooser's answer if no response arrived first — provided the call
got past the readiness gate (the handshake acknowledgment arrived, so the
callback and the 5000 ms timer were registered); in the ready state every
issued request has a result by the time its timer fires, whatever happens
in between.  But when the worker is constructed and never responds — not
even to the handshake — no timer is ever scheduled: the call suspends on
the readiness promise and stays unresolved under every continuation
without worker messages.  The fallback answer is empty exactly when the
position has no legal moves. -/
theorem c2_resolution_behavior :
    (∀ (s : BridgeState) (id : Nat) (g : Game) (r rt : Rand) (evs : List BridgeEvent),
      s.readyResolved = true → s.hasInitError = false → s.engineExists = true →
      s.pendingTimeouts.lookup id = none → (∀ w ∈ s.waitingReady, w.1 ≠ id) →
      (∀ e ∈ evs, notIssueId id e) →
      ((step (evs.foldl step (step s (.issue id g r)))
        (.fireTimeout id rt)).results.lookup id).isSome) ∧
    (∀ (id : Nat) (g : Game) (r : Rand) (evs : List BridgeEvent),
      (∀ e ∈ evs, notMsg e) →
      (runBridge true (.issue id g r :: evs)).results = []) ∧
    (∀ (g : Game) (r : Rand), simulateBestMove g r = "" ↔ legalMoves g.pos = []) := by
  refine ⟨?_, ?_, simulateBestMove_eq_empty_iff⟩
  · intro s id g r rt evs h1 h2 h3 h4 h5 h6
    exact pendingFor_fireTimeout id g _ rt
      (pendingFor_fold id g evs h6 _ (pendingFor_issue id g r s h1 h2 h3 h4 h5))
  · intro id g r evs hall
    have h0 : Unstarted (initState true) := ⟨rfl, rfl, rfl, rfl⟩
    have h1 : Unstarted (step (initState true) (.issue id g r)) :=
      unstarted_step _ _ h0 trivial
    exact (unstarted_fold evs hall _ h1).2.2.2

/-- The bridge state after `getBestMove` was called on a worker that was
constructed successfully but never sent any message. -/
def c2stuck : BridgeState := runBridge true [.issue 0 initialGame half]

/-- C2 counterexample: with the worker constructed but silent, the call is
parked on the readiness wait — no fallback timer was scheduled, no callback
registered, no search command sent, and no result recorded, so the call
does not resolve by the fixed timeout (and, by the amended theorem, never
resolves while the process stays silent). -/
theorem c2_counterexample :
    c2stuck.results.lookup 0 = none ∧
    c2stuck.pendingTimeouts = [] ∧
    c2stuck.moveCallbacks = [] ∧
    c2stuck.sent = initCmds ∧
    c2stuck.waitingReady = [(0, initialGame, half)] :=
  ⟨by decide, by decide, by decide, by decide, rfl⟩

/-- The healthy bridge state right after the readiness acknowledgment. -/
def c2ready : BridgeState := runBridge true [.engineMsg .readyok]

/-- Witness for C2: in the ready state a request is resolved once its timer
fires; a silent worker leaves the request unresolved; and the fallback is
empty only at a position without legal moves. -/
theorem c2_witness :
    ((step (([] : List BridgeEvent).foldl step (step c2ready (.issue 0 initialGame half)))
      (.fireTimeout 0 half)).results.lookup 0).isSome ∧
    (runBridge true [.issue 0 initialGame half]).results = [] ∧
    (simulateBestMove initialGame half = "" ↔ legalMoves initialGame.pos = []) :=
  ⟨c2_resolution_behavior.1 c2ready 0 initialGame half half [] (by decide) (by decide)
      (by decide) (by decide) (by decide) (by simp),
   c2_resolution_behavior.2.1 0 initialGame half [] (by simp),
   c2_resolution_behavior.2.2 initialGame half⟩

/-! ## Claim C9: the fallback move chooser -/

/-- C9: `simulateBestMove` is a pure function of the verbose legal-move
list of the position and the injected `Math.random()` sample: it returns
the empty suggestion exactly on an empty legal-move set, otherwise the UCI
text of a member of the set; it is determined by the legal-move list alone
(same list, same sample, same answer); and the chosen index is
`⌊r·n⌋`, which equals `i` exactly for samples in `[i/n, (i+1)/n)` — the
preimages of the `n` indices are intervals of equal width `1/n`, so the
choice is uniform for a uniform sample. -/
theorem c9_fallback_chooser :
    (∀ (g : Game) (r : Rand), movesVerbose g.pos = [] → simulateBestMove g r = "") ∧
    (∀ (g : Game) (r : Rand), movesVerbose g.pos ≠ [] →
      ∃ m ∈ movesVerbose g.pos, simulateBestMove g r = moveToUci m) ∧
    (∀ (g1 g2 : Game) (r : Rand), movesVerbose g1.pos = movesVerbose g2.pos →
      simulateBestMove g1 r = simulateBestMove g2 r) ∧
    (∀ (r : Rand) (n i : Nat), 0 < n →
      (randIndex r n = i ↔ (i : ℚ) / n ≤ r.val ∧ r.val < ((i : ℚ) + 1) / n)) := by
  refine ⟨?_, ?_, ?_, ?_⟩
  · intro g r h
    unfold simulateBestMove
    rw [dif_pos (by rw [h]; rfl)]
  · intro g r h
    unfold simulateBestMove
    rw [dif_neg (by simpa using h)]
    exact ⟨_, List.get_mem _ _ _, rfl⟩
  · intro g1 g2 r h
    have key : ∀ (l1 l2 : List MoveRec), l1 = l2 →
        (if hz : l1.length = 0 then "" else moveToUci (l1.get
          ⟨randIndex r l1.length, randIndex_lt r l1.length (Nat.pos_of_ne_zero hz)⟩)) =
        (if hz : l2.length = 0 then "" else moveToUci (l2.get
          ⟨randIndex r l2.length, randIndex_lt r l2.length (Nat.pos_of_ne_zero hz)⟩)) := by
      intro l1 l2 h12
      subst h12
      rfl
    exact key _ _ h
  · intro r n i hn
    have hnQ : (0 : ℚ) < (n : ℚ) := by exact_mod_cast hn
    have h0 : 0 ≤ ⌊r.val * (n : ℚ)⌋ :=
      Int.floor_nonneg.mpr (mul_nonneg r.prop.1 hnQ.le)
    unfold randIndex
    constructor
    · intro h
      have hfl : ⌊r.val * (n : ℚ)⌋ = (i : ℤ) := by omega
      obtain ⟨hl, hr⟩ := Int.floor_eq_iff.mp hfl
      constructor
      · rw [div_le_iff₀ hnQ]
        exact_mod_cast hl
      · rw [lt_div_iff₀ hnQ]
        push_cast at hr
        exact_mod_cast hr
    · intro ⟨hl, hr⟩
      have hl2 : (i : ℚ) ≤ r.val * (n : ℚ) := (div_le_iff₀ hnQ).mp hl
      have hr2 : r.val * (n : ℚ) < (i : ℚ) + 1 := (lt_div_iff₀ hnQ).mp hr
      have hfl : ⌊r.val * (n : ℚ)⌋ = (i : ℤ) :=
        Int.floor_eq_iff.mpr ⟨by exact_mod_cast hl2, by push_cast; exact_mod_cast hr2⟩
      omega

/-- Witness for C9 at the initial position (20 legal moves) and the sample
one half. -/
theorem c9_witness :
    (∃ m ∈ movesVerbose initialGame.pos, simulateBestMove initialGame half = moveToUci m) ∧
    (randIndex half 20 = 10 ↔ (10 : ℚ) / 20 ≤ half.val ∧ half.val < ((10 : ℚ) + 1) / 20) :=
  ⟨c9_fallback_chooser.2.1 initialGame half (by decide),
   c9_fallback_chooser.2.2.2 half 20 10 (by norm_num)⟩

end Chess
